import Mathlib

/-!
Shallow embedding of the resume text parser (`parseResumeText` and its helper
functions) from the repository source.  JS strings are modelled as `List Char`;
each regular expression of the source is hand-compiled into an executable
matcher with the same leftmost / greedy-with-backtracking semantics on the
character list.  All definitions are translated from the source file
`src/unnamed/part_001`.
-/

set_option maxRecDepth 4000

namespace ResumeParser

/-- Characters of a JS string; the embedding works on explicit character lists. -/
abbrev Str := List Char

/-- Character data of a Lean string literal. -/
def str (s : String) : Str := s.data

/-- Whitespace characters (`\s` for the ASCII inputs handled here). -/
def isWSChar (c : Char) : Bool := c == ' ' || c == '\t' || c == '\r' || c == '\n'

/-- JS `\w`: ASCII letters, digits and underscore. -/
def isWordChar (c : Char) : Bool := c.isAlphanum || c == '_'

/-- Lower-case every character (ASCII), used for the `/i` regex flag. -/
def lowerStr (s : Str) : Str := s.map Char.toLower

/-- JS `String.prototype.trim` on a line. -/
def trimStr (s : Str) : Str := ((s.dropWhile isWSChar).reverse.dropWhile isWSChar).reverse

/-- JS `s.split(sep)` for a single-character separator: every occurrence splits,
empty pieces are kept. -/
def splitOnCharGo (sep : Char) (acc : Str) : Str → List Str
  | [] => [acc]
  | c :: cs => if c == sep then acc :: splitOnCharGo sep [] cs else splitOnCharGo sep (acc ++ [c]) cs

def splitOnChar (sep : Char) (s : Str) : List Str := splitOnCharGo sep [] s

/-- JS `s.split(re)` where `re` matches any single character satisfying `p`
(e.g. the colon-or-dash alternation): each separator splits, empty pieces kept. -/
def splitOnPredGo (p : Char → Bool) (acc : Str) : Str → List Str
  | [] => [acc]
  | c :: cs => if p c then acc :: splitOnPredGo p [] cs else splitOnPredGo p (acc ++ [c]) cs

def splitOnPred (p : Char → Bool) (s : Str) : List Str := splitOnPredGo p [] s

/-- JS `s.split(re)` where `re` matches a nonempty RUN of characters satisfying
`p` (e.g. `/[\n•,;]+/`): a maximal run of separator characters is one split.
`inRun` records that the previous character was a separator (the current piece
having already been emitted). -/
def splitRunsGo (p : Char → Bool) (inRun : Bool) (acc : Str) : Str → List Str
  | [] => [acc]
  | c :: cs =>
    if p c then
      if inRun then splitRunsGo p true acc cs
      else acc :: splitRunsGo p true [] cs
    else splitRunsGo p false (acc ++ [c]) cs

def splitRuns (p : Char → Bool) (s : Str) : List Str := splitRunsGo p false [] s

/-- JS `lines.join(sep)` for a single-character separator. -/
def intercalateChar (sep : Char) : List Str → Str
  | [] => []
  | [x] => x
  | x :: xs => x ++ sep :: intercalateChar sep xs

/-- JS `hay.includes(needle)` (case-sensitive substring test). -/
def containsSub (needle : Str) : Str → Bool
  | [] => needle.isEmpty
  | c :: cs => needle.isPrefixOf (c :: cs) || containsSub needle cs

/-- Case-insensitive substring test: `needle` is given lower-case. -/
def containsCI (hay : Str) (needle : Str) : Bool := containsSub needle (lowerStr hay)

/-- Case-insensitive whole-string equality against a lower-case `needle`
(JS `/^pat$/i.test(s)` for a literal `pat`). -/
def eqCI (s : Str) (needle : Str) : Bool := lowerStr s == needle

/-- Case-insensitive test that `s` starts with the lower-case literal `needle`
(JS `/^pat/i.test(s)`). -/
def startsCI (s : Str) (needle : Str) : Bool := needle.isPrefixOf (lowerStr s)

/-- `s` starts with keyword `k` (lower-case) followed by a word boundary
(JS `/^k\b/i` for a keyword ending in a word character). -/
def startsKeywordCI (s : Str) (k : Str) : Bool :=
  let ls := lowerStr s
  k.isPrefixOf ls &&
    (match ls.drop k.length with
     | [] => true
     | c :: _ => !isWordChar c)

/-- First-seen-order deduplication, as produced by `Array.from(new Set(xs))`. -/
def dedupFirstAux {α : Type} [DecidableEq α] (seen : List α) : List α → List α
  | [] => []
  | x :: xs => if x ∈ seen then dedupFirstAux seen xs else x :: dedupFirstAux (x :: seen) xs

def dedupFirst {α : Type} [DecidableEq α] (l : List α) : List α := dedupFirstAux [] l

/-- Is the previous character (if any) a non-word character?  This is the JS
word boundary `\b` at a position whose current character is a word character. -/
def boundaryBefore (prev : Option Char) : Bool :=
  match prev with
  | none => true
  | some c => !isWordChar c

/-! ### The email regex

JS source: `blob.match(/[A-Z0-9._%+-]+@[A-Z0-9.-]+\.[A-Z]{2,}/im)` -- the first
(leftmost) match of: one or more local-part characters, `@`, one or more domain
characters, a dot, two or more letters.  The `i` flag makes the classes case
insensitive. -/

def isEmailLocalChar (c : Char) : Bool :=
  c.isAlphanum || c == '.' || c == '_' || c == '%' || c == '+' || c == '-'

def isEmailDomainChar (c : Char) : Bool := c.isAlphanum || c == '.' || c == '-'

/-- Backtracking for `[A-Z0-9.-]+\.[A-Z]{2,}` after the `@`: the greedy `+`
consumes `k` characters (largest first), then needs a literal dot and at least
two letters (taken greedily). -/
def emailDomainBT (rest : Str) : Nat → Option Str
  | 0 => none
  | Nat.succ k' =>
    let kk := Nat.succ k'
    if rest.getD kk ' ' == '.' then
      let letters := (rest.drop (kk + 1)).takeWhile Char.isAlpha
      if letters.length ≥ 2 then some (rest.take kk ++ '.' :: letters)
      else emailDomainBT rest k'
    else emailDomainBT rest k'

/-- Try the email pattern anchored at the start of `s`. -/
def emailAt (s : Str) : Option Str :=
  let r1 := s.takeWhile isEmailLocalChar
  if r1.isEmpty then none
  else
    match s.drop r1.length with
    | '@' :: rest =>
      match emailDomainBT rest ((rest.takeWhile isEmailDomainChar).length - 1) with
      | some tail => some (r1 ++ '@' :: tail)
      | none => none
    | _ => none

/-- Leftmost email match in the blob. -/
def emailSearch : Str → Option Str
  | [] => none
  | c :: cs =>
    match emailAt (c :: cs) with
    | some m => some m
    | none => emailSearch cs

/-! ### The phone regex

JS source: `blob.match(/(\+?\d[\d\s\-().]{7,}\d)/m)` -- optional `+`, a digit,
at least seven characters from the phone class, and a final digit. -/

def isPhoneChar (c : Char) : Bool :=
  c.isDigit || isWSChar c || c == '-' || c == '(' || c == ')' || c == '.'

/-- Backtracking for `[\d\s\-().]{7,}\d` over the maximal class run `run`:
the quantifier consumes `k ≥ 7` characters (largest first), then the final
`\d` must match the next character of the run. -/
def phoneBT (run : Str) : Nat → Option Str
  | 0 => none
  | Nat.succ k' =>
    let kk := Nat.succ k'
    if kk ≥ 7 && (run.getD kk ' ').isDigit then some (run.take kk ++ [run.getD kk ' '])
    else phoneBT run k'

def phoneCore (s : Str) : Option Str :=
  match s with
  | [] => none
  | c :: rest =>
    if c.isDigit then
      let run := rest.takeWhile isPhoneChar
      match phoneBT run (run.length - 1) with
      | some t => some (c :: t)
      | none => none
    else none

/-- Try the phone pattern anchored at the start of `s` (a leading `+`, if
present, is consumed by the greedy optional and cannot be skipped usefully). -/
def phoneAt (s : Str) : Option Str :=
  match s with
  | '+' :: rest => (phoneCore rest).map (fun t => '+' :: t)
  | _ => phoneCore s

/-- Leftmost phone match in the blob. -/
def phoneSearch : Str → Option Str
  | [] => none
  | c :: cs =>
    match phoneAt (c :: cs) with
    | some m => some m
    | none => phoneSearch cs

/-! ### The location regex

JS source: `blob.match(/\b([A-Z][a-zA-Z]+(?:,\s*[A-Z][a-zA-Z]+)+)\b/)` (case
sensitive): a capitalized word followed by one or more `, CapitalizedWord`
groups, with word boundaries on both sides.  The result field uses group 1,
which is the whole body. -/

/-- Parse one `,\s*[A-Z][a-zA-Z]+` repetition at the start of `s`; returns the
number of characters consumed. -/
def locOneRep (s : Str) : Option Nat :=
  match s with
  | ',' :: rest =>
    let w := rest.takeWhile isWSChar
    match rest.drop w.length with
    | c :: r3 =>
      if c.isUpper then
        let letters := r3.takeWhile Char.isAlpha
        if letters.isEmpty then none else some (2 + w.length + letters.length)
      else none
    | [] => none
  | _ => none

/-- Greedily collect the sizes of successive repetitions (fuel-bounded by the
input length; every repetition consumes at least three characters). -/
def locRepListGo : Nat → Str → List Nat
  | 0, _ => []
  | Nat.succ f, s =>
    match locOneRep s with
    | some k => k :: locRepListGo f (s.drop k)
    | none => []

def locRepList (s : Str) : List Nat := locRepListGo s.length s

/-- Trailing word boundary: next character absent or a non-word character. -/
def locBoundaryOk (s : Str) : Bool :=
  match s with
  | [] => true
  | c :: _ => !isWordChar c

/-- Try the location body (group 1) anchored at `s` whose head must be a
capital letter; the greedy repetition backtracks by dropping its final group
(after which the next character is the `,` of the dropped group, a non-word
character, so one step of backtracking always restores the boundary). -/
def locTry (s : Str) : Option Str :=
  match s with
  | [] => none
  | c :: rest =>
    if c.isUpper then
      let letters := rest.takeWhile Char.isAlpha
      if letters.isEmpty then none
      else
        let after := rest.drop letters.length
        let reps := locRepList after
        if reps.isEmpty then none
        else
          let total := reps.foldl (· + ·) 0
          if locBoundaryOk (after.drop total) then some (c :: letters ++ after.take total)
          else if reps.length ≥ 2 then
            some (c :: letters ++ after.take (total - reps.getLastD 0))
          else none
    else none

/-- Leftmost location match, tracking the previous character for `\b`. -/
def locSearch (prev : Option Char) : Str → Option Str
  | [] => none
  | c :: cs =>
    match (if boundaryBefore prev then locTry (c :: cs) else none) with
    | some m => some m
    | none => locSearch (some c) cs

/-! ### The link regexes

JS source builds the links list from five global scans over the blob:
`/https?:\/\/[^\s)]+/g`, `/\bwww\.[^\s)]+/g`, `/\bgithub\.com\/[^\s)]+/gi`,
`/\blinkedin\.com\/[^\s)]+/gi`, `/\bportfolio\.[^\s)]+/gi`, deduplicated in
first-seen order. -/

/-- `[^\s)]`: neither whitespace nor a closing parenthesis. -/
def isUrlChar (c : Char) : Bool := !isWSChar c && c != ')'

/-- Case-insensitive literal at the start of `s` (`needle` is lower-case). -/
def ciLiteralAt (needle : Str) (s : Str) : Bool :=
  (s.take needle.length).map Char.toLower == needle

/-- Try `https?:\/\/[^\s)]+` anchored at `s` (case sensitive). -/
def httpAt (s : Str) : Option Str :=
  if (str "https://").isPrefixOf s then
    let run := (s.drop 8).takeWhile isUrlChar
    if run.isEmpty then none else some (str "https://" ++ run)
  else if (str "http://").isPrefixOf s then
    let run := (s.drop 7).takeWhile isUrlChar
    if run.isEmpty then none else some (str "http://" ++ run)
  else none

/-- Leftmost `https?:\/\/[^\s)]+` match (used for a project link line). -/
def httpSearch : Str → Option Str
  | [] => none
  | c :: cs =>
    match httpAt (c :: cs) with
    | some m => some m
    | none => httpSearch cs

/-- A literal-prefix link matcher: word boundary (when `needsB`), the literal
`lit` (compared case-insensitively when `ci`, reproduced from the input), then
one or more URL characters. -/
def litLinkAt (needsB : Bool) (ci : Bool) (lit : Str) (prev : Option Char) (s : Str) :
    Option Str :=
  if needsB && !boundaryBefore prev then none
  else
    let hit := if ci then ciLiteralAt lit s else lit.isPrefixOf s
    if hit then
      let run := (s.drop lit.length).takeWhile isUrlChar
      if run.isEmpty then none else some (s.take lit.length ++ run)
    else none

/-- All non-overlapping matches of `tryAt` over `s`, scanning left to right and
resuming after each match (JS global-flag semantics); `prev` is the character
before the current position, for `\b`. -/
def scanGlobalGo (tryAt : Option Char → Str → Option Str) :
    Nat → Option Char → Str → List Str
  | 0, _, _ => []
  | Nat.succ f, prev, s =>
    match s with
    | [] => []
    | c :: cs =>
      match tryAt prev (c :: cs) with
      | some m => m :: scanGlobalGo tryAt f m.getLast? (cs.drop (m.length - 1))
      | none => scanGlobalGo tryAt f (some c) cs

/-- Every step consumes at least one character, so fuel `s.length` suffices. -/
def scanGlobal (tryAt : Option Char → Str → Option Str) (prev : Option Char) (s : Str) :
    List Str :=
  scanGlobalGo tryAt s.length prev s

/-- The five link scans of the source, in order. -/
def linkMatches (blob : Str) : List Str :=
  scanGlobal (fun _ s => httpAt s) none blob ++
  scanGlobal (litLinkAt true false (str "www.")) none blob ++
  scanGlobal (litLinkAt true true (str "github.com/")) none blob ++
  scanGlobal (litLinkAt true true (str "linkedin.com/")) none blob ++
  scanGlobal (litLinkAt true true (str "portfolio.")) none blob

/-! ### Year-range, degree, and keyword tests -/

/-- `/\b(20\d{2}).{0,5}(\b20\d{2}\b|present|current)/i` (and the experience
variant with `{0,12}`): somewhere in the line, a word boundary, `20` and two
digits, a gap of at most `maxGap` arbitrary characters (`.` excludes newline),
then either another bounded `20dd` or the literal `present` / `current`. -/
def year4At (s : Str) : Bool :=
  match s with
  | '2' :: '0' :: c :: d :: _ => c.isDigit && d.isDigit
  | _ => false

/-- Second alternative of the year pattern at offset `j` of `s`; `pj` is the
character just before `j` (for the inner `\b`). -/
def yearSecondAt (pj : Option Char) (s : Str) : Bool :=
  (boundaryBefore pj && year4At s &&
    (match s.drop 4 with
     | [] => true
     | c :: _ => !isWordChar c)) ||
  ciLiteralAt (str "present") s ||
  ciLiteralAt (str "current") s

/-- Try the year pattern anchored at `s` (with `prev` the preceding character):
first `\b20\d{2}`, then some gap `g ≤ maxGap` of non-newline characters, then
the second alternative. -/
def yearAt (maxGap : Nat) (prev : Option Char) (s : Str) : Bool :=
  boundaryBefore prev && year4At s &&
    (List.range (maxGap + 1)).any (fun g =>
      ((s.drop 4).take g).all (fun c => c != '\n') &&
      yearSecondAt (s.drop (3 + g)).head? (s.drop (4 + g)))

/-- Substring search for the year pattern, tracking the previous character. -/
def yearSearch (maxGap : Nat) (prev : Option Char) : Str → Bool
  | [] => false
  | c :: cs => yearAt maxGap prev (c :: cs) || yearSearch maxGap (some c) cs

/-- `.test` of the year-range regex on a line. -/
def yearTest (maxGap : Nat) (l : Str) : Bool := yearSearch maxGap none l

/-- `pre`, an optional dot, then `suf`, at the start of the (lowered) `s`. -/
def optDotAt (s : Str) (pre suf : Str) : Bool :=
  (pre ++ suf).isPrefixOf s || (pre ++ '.' :: suf).isPrefixOf s

/-- One position of the degree-keyword regex
`(\bB\.?Tech|B\.?E|B\.?Sc|M\.?Tech|M\.?E|M\.?Sc|Bachelor|Master|Diploma|Ph\.?D)/i`;
note the word boundary applies only to the first alternative.  `s` is the
lowered tail of the line, `prev` the preceding (lowered) character. -/
def degreeAt (prev : Option Char) (s : Str) : Bool :=
  (boundaryBefore prev && optDotAt s (str "b") (str "tech")) ||
  optDotAt s (str "b") (str "e") ||
  optDotAt s (str "b") (str "sc") ||
  optDotAt s (str "m") (str "tech") ||
  optDotAt s (str "m") (str "e") ||
  optDotAt s (str "m") (str "sc") ||
  (str "bachelor").isPrefixOf s ||
  (str "master").isPrefixOf s ||
  (str "diploma").isPrefixOf s ||
  optDotAt s (str "ph") (str "d")

def degreeSearch (prev : Option Char) : Str → Bool
  | [] => false
  | c :: cs => degreeAt prev (c :: cs) || degreeSearch (some c) cs

/-- `.test` of the degree-keyword regex on a line. -/
def degreeTest (l : Str) : Bool := degreeSearch none (lowerStr l)

/-! ### Section locator (`findSection`)

JS source lines 277-297: collect the indexes of all lines matched by the header
regex; if none, return the empty string; otherwise the section starts at the
first such index and ends at the first later line that starts with a recognized
section-header keyword (with trailing word boundary), or at end of document. -/

/-- The closed keyword set of the boundary regex
`^(skills|technical skills|experience|work experience|professional experience|education|academics|projects|personal projects|summary|objective|about|certifications|awards)\b/i`. -/
def sectionHeaderKeywords : List Str :=
  [str "skills", str "technical skills", str "experience", str "work experience",
   str "professional experience", str "education", str "academics", str "projects",
   str "personal projects", str "summary", str "objective", str "about",
   str "certifications", str "awards"]

/-- A line that bounds a section: it starts (case-insensitively) with one of the
fixed keywords, followed by a word boundary. -/
def isBoundaryLine (l : Str) : Bool :=
  sectionHeaderKeywords.any (fun k => startsKeywordCI l k)

/-- Indexes (from `i`) of the lines matched by the header test
(the `lines.forEach` / `indexes.push` loop of the source). -/
def headerIndexesFrom (test : Str → Bool) (i : Nat) : List Str → List Nat
  | [] => []
  | l :: ls =>
    if test l then i :: headerIndexesFrom test (i + 1) ls
    else headerIndexesFrom test (i + 1) ls

def headerIndexes (test : Str → Bool) (lines : List Str) : List Nat :=
  headerIndexesFrom test 0 lines

/-- The `for` loop of the source scanning from index `i` for the first
boundary line; returns `lines.length` when none exists (fuel-bounded: the fuel
`lines.length` always outlasts the loop). -/
def sectionEndGo (lines : List Str) : Nat → Nat → Nat
  | 0, _ => lines.length
  | Nat.succ f, i =>
    if i < lines.length then
      if isBoundaryLine (lines.getD i []) then i else sectionEndGo lines f (i + 1)
    else lines.length

/-- End bound of the section starting at `start`. -/
def sectionEnd (lines : List Str) (start : Nat) : Nat :=
  sectionEndGo lines lines.length (start + 1)

/-- Start and end line indexes of the located section, when the header test
matches some line. -/
def sectionBounds (test : Str → Bool) (lines : List Str) : Option (Nat × Nat) :=
  match headerIndexes test lines with
  | [] => none
  | s :: _ => some (s, sectionEnd lines s)

/-- `findSection(text, headerRegex)` of the source. -/
def findSection (text : Str) (test : Str → Bool) : Str :=
  let lines := splitOnChar '\n' text
  match sectionBounds test lines with
  | none => []
  | some (s, e) => trimStr (intercalateChar '\n' ((lines.drop s).take (e - s)))

/-- Header test of `extractSkills`: `/(skills|technical skills)/i`. -/
def skillsSectionTest (l : Str) : Bool :=
  containsCI l (str "skills") || containsCI l (str "technical skills")

/-- Header test of `extractEducation`: `/(education|academics|academic background)/i`. -/
def eduSectionTest (l : Str) : Bool :=
  containsCI l (str "education") || containsCI l (str "academics") ||
  containsCI l (str "academic background")

/-- Header test of `extractExperience`:
`/(experience|work experience|professional experience)/i`. -/
def expSectionTest (l : Str) : Bool :=
  containsCI l (str "experience") || containsCI l (str "work experience") ||
  containsCI l (str "professional experience")

/-- Header test of `extractProjects`: `/(projects|personal projects)/i`. -/
def projSectionTest (l : Str) : Bool :=
  containsCI l (str "projects") || containsCI l (str "personal projects")

/-- Header test of `extractSummary`: `/(summary|objective|about)/i`. -/
def summarySectionTest (l : Str) : Bool :=
  containsCI l (str "summary") || containsCI l (str "objective") ||
  containsCI l (str "about")

theorem dropWhileLenLe (p : Char → Bool) : ∀ l : Str, (l.dropWhile p).length ≤ l.length := by
  intro l
  induction l with
  | nil => simp [List.dropWhile]
  | cons c cs ih =>
    by_cases h : p c
    · simp only [List.dropWhile, h, List.length_cons]
      omega
    · simp [List.dropWhile, h]

/-- `cap` of the source: collapse whitespace runs to single spaces, trim, then
upper-case every word-initial word character (`replace(/\b\w/g, upper)`).
`inWS` records that the previous character was whitespace (its run already
replaced by one space). -/
def collapseWSGo (inWS : Bool) : Str → Str
  | [] => []
  | c :: cs =>
    if isWSChar c then
      if inWS then collapseWSGo true cs else ' ' :: collapseWSGo true cs
    else c :: collapseWSGo false cs

def collapseWS (s : Str) : Str := collapseWSGo false s

def upWordsGo (prevWord : Bool) : Str → Str
  | [] => []
  | c :: cs =>
    if isWordChar c then
      (if prevWord then c else c.toUpper) :: upWordsGo true cs
    else c :: upWordsGo false cs

def cap (s : Str) : Str := upWordsGo false (trimStr (collapseWS s))

/-! ### Data model (§ the normalized object of `extractResumeDataFromPdf`) -/

structure ContactInfo where
  email : Str
  phone : Str
  location : Str
  links : List Str
deriving DecidableEq, Repr

structure EducationEntry where
  degree : Str
  institution : Str
  period : Str
  details : Str
deriving DecidableEq, Repr

structure ExperienceEntry where
  company : Str
  role : Str
  period : Str
  bullets : List Str
deriving DecidableEq, Repr

structure ProjectEntry where
  name : Str
  description : Str
  tech : List Str
  link : Str
deriving DecidableEq, Repr

structure ResumeRecord where
  name : Str
  title : Str
  contact : ContactInfo
  summary : Str
  skills : List Str
  education : List EducationEntry
  experience : List ExperienceEntry
  projects : List ProjectEntry
deriving DecidableEq, Repr

/-! ### `extractSkills` (source lines 135-150) -/

/-- Token after the first colon: `r.split(':').slice(1).flatten(':')`. -/
def afterColon : Str → Str
  | [] => []
  | c :: cs => if c == ':' then cs else afterColon cs

def isSkillSep (c : Char) : Bool := c == '\n' || c == '•' || c == ',' || c == ';'

def isSkillSep2 (c : Char) : Bool := c == ',' || c == ';' || c == '•'

def extractSkills (text : Str) : List Str :=
  let sec := findSection text skillsSectionTest
  if sec.isEmpty then []
  else
    let raw := ((splitRuns isSkillSep sec).map trimStr).filter (fun s => !s.isEmpty)
    let filtered := raw.filter (fun r =>
      !(eqCI r (str "skills") || eqCI r (str "technical skills")))
    let expanded := filtered.flatMap (fun r =>
      let ac := if r.contains ':' then afterColon r else r
      ((splitRuns isSkillSep2 ac).map trimStr).filter (fun s => !s.isEmpty))
    dedupFirst (expanded.map cap)

/-! ### `extractEducation` (source lines 152-186) -/

/-- Skip test `/^(education|academics)/i` (a prefix, no boundary, no anchor
at the end). -/
def eduSkipLine (l : Str) : Bool :=
  startsCI l (str "education") || startsCI l (str "academics")

def instLine (l : Str) : Bool :=
  containsCI l (str "university") || containsCI l (str "college") ||
  containsCI l (str "institute") || containsCI l (str "school")

/-- The `lines.forEach` fold of `extractEducation`, with the mutable
`current` cursor made explicit. -/
def eduGo : List Str → List EducationEntry → Option EducationEntry → List EducationEntry
  | [], entries, cur => entries ++ cur.toList
  | l :: ls, entries, cur =>
    if eduSkipLine l then eduGo ls entries cur
    else if degreeTest l then
      eduGo ls (entries ++ cur.toList) (some ⟨l, [], [], []⟩)
    else if instLine l then
      let c := cur.getD ⟨[], [], [], []⟩
      let c' := { c with institution :=
        if c.institution.isEmpty then l else c.institution ++ ' ' :: l }
      eduGo ls entries (some c')
    else if yearTest 5 l then
      let c := cur.getD ⟨[], [], [], []⟩
      eduGo ls entries (some { c with period := l })
    else
      let c := cur.getD ⟨[], [], [], []⟩
      let c' := { c with details :=
        if c.details.isEmpty then l else c.details ++ ' ' :: l }
      eduGo ls entries (some c')

/-- Final normalization map of the source: `degree: e.degree || e.details || ''`. -/
def eduFinalize (e : EducationEntry) : EducationEntry :=
  { degree := if e.degree.isEmpty then e.details else e.degree
    institution := e.institution
    period := e.period
    details := e.details }

def sectionLines (sec : Str) : List Str :=
  ((splitOnChar '\n' sec).map trimStr).filter (fun l => !l.isEmpty)

def extractEducation (text : Str) : List EducationEntry :=
  let sec := findSection text eduSectionTest
  if sec.isEmpty then []
  else (eduGo (sectionLines sec) [] none).map eduFinalize

/-! ### `extractExperience` (source lines 188-232) -/

/-- Skip test `/^(experience|work experience|professional experience)$/i`. -/
def expSkipLine (l : Str) : Bool :=
  eqCI l (str "experience") || eqCI l (str "work experience") ||
  eqCI l (str "professional experience")

/-- `/[–-]/.test(l)`: contains an en dash or hyphen. -/
def hasDashChar (l : Str) : Bool := l.any (fun c => c == '–' || c == '-')

/-- `/at|@| - | – |—/.test(l)` (case sensitive). -/
def hasConnector (l : Str) : Bool :=
  containsSub (str "at") l || l.contains '@' || containsSub (str " - ") l ||
  containsSub (str " – ") l || l.contains '—'

/-- `/intern|engineer|developer|manager|lead/i.test(l)`. -/
def roleKeywordLine (l : Str) : Bool :=
  containsCI l (str "intern") || containsCI l (str "engineer") ||
  containsCI l (str "developer") || containsCI l (str "manager") ||
  containsCI l (str "lead")

/-- New-entry test of the source:
`/[–-]/.test(l) && /at|@| - | – |—/.test(l) || /intern|.../i.test(l)`. -/
def expNewEntryLine (l : Str) : Bool := (hasDashChar l && hasConnector l) || roleKeywordLine l

/-- Separator of the split `/[-–—]| at | @ /i` at the current position:
returns its length (alternation tried left to right). -/
def expSepAt (s : Str) : Option Nat :=
  match s with
  | [] => none
  | c :: _ =>
    if c == '-' || c == '–' || c == '—' then some 1
    else if ciLiteralAt (str " at ") s then some 4
    else if (str " @ ").isPrefixOf s then some 3
    else none

def expSplitGo : Nat → Str → Str → List Str
  | 0, acc, _ => [acc]
  | Nat.succ f, acc, s =>
    match s with
    | [] => [acc]
    | c :: cs =>
      match expSepAt (c :: cs) with
      | some k => acc :: expSplitGo f [] (cs.drop (k - 1))
      | none => expSplitGo f (acc ++ [c]) cs

/-- `l.split(/[-–—]| at | @ /i).map(trim).filter(Boolean)`. -/
def expParts (l : Str) : List Str :=
  ((expSplitGo l.length [] l).map trimStr).filter (fun p => !p.isEmpty)

/-- `/intern|engineer|developer|manager|lead|analyst|consultant/i.test(p)`. -/
def roleKeyword2 (p : Str) : Bool :=
  containsCI p (str "intern") || containsCI p (str "engineer") ||
  containsCI p (str "developer") || containsCI p (str "manager") ||
  containsCI p (str "lead") || containsCI p (str "analyst") ||
  containsCI p (str "consultant")

/-- `parts.findIndex(...)` as an optional index. -/
def findIdxOpt (p : Str → Bool) : List Str → Option Nat
  | [] => none
  | x :: xs => if p x then some 0 else (findIdxOpt p xs).map (· + 1)

/-- JS `xs.join(sep)` for a multi-character separator. -/
def intercalateStr (sep : Str) : List Str → Str
  | [] => []
  | [x] => x
  | x :: xs => x ++ sep ++ intercalateStr sep xs

/-- Build the fresh entry opened by a new-entry line (source lines 200-217):
split into parts; with two or more parts, the part matching a role keyword (or
else the first part) is the role and the remaining parts joined with a dash are
the company; otherwise the whole line is the role. -/
def expOpenEntry (l : Str) : ExperienceEntry :=
  let parts := expParts l
  if parts.length ≥ 2 then
    match findIdxOpt roleKeyword2 parts with
    | some i =>
      { company := intercalateStr (str " - ") (parts.eraseIdx i)
        role := parts.getD i []
        period := []
        bullets := [] }
    | none =>
      { company := intercalateStr (str " - ") (parts.drop 1)
        role := parts.headD []
        period := []
        bullets := [] }
  else { company := [], role := l, period := [], bullets := [] }

/-- `/^[-•]/.test(l)`. -/
def expBulletStart (l : Str) : Bool :=
  match l with
  | [] => false
  | c :: _ => c == '-' || c == '•'

/-- `l.replace(/^[-•]\s?/, '')`: strip one leading marker plus at most one
whitespace character. -/
def stripBulletMarker (l : Str) : Str :=
  match l with
  | c :: cs =>
    if c == '-' || c == '•' then
      match cs with
      | d :: ds => if isWSChar d then ds else cs
      | [] => []
    else l
  | [] => []

/-- The `lines.forEach` fold of `extractExperience` (lines 195-229). -/
def expGo : List Str → List ExperienceEntry → Option ExperienceEntry → List ExperienceEntry
  | [], entries, cur => entries ++ cur.toList
  | l :: ls, entries, cur =>
    if expSkipLine l then expGo ls entries cur
    else if expNewEntryLine l then
      expGo ls (entries ++ cur.toList) (some (expOpenEntry l))
    else if yearTest 12 l then
      let c := cur.getD ⟨[], [], [], []⟩
      expGo ls entries (some { c with period := l })
    else if expBulletStart l || decide (l.length < 140) then
      let c := cur.getD ⟨[], [], [], []⟩
      expGo ls entries (some { c with bullets := c.bullets ++ [trimStr (stripBulletMarker l)] })
    else
      let c := cur.getD ⟨[], [], [], []⟩
      expGo ls entries (some { c with bullets := c.bullets ++ [l] })

def extractExperience (text : Str) : List ExperienceEntry :=
  let sec := findSection text expSectionTest
  if sec.isEmpty then []
  else expGo (sectionLines sec) [] none

/-! ### `extractProjects` (source lines 234-262) -/

/-- Skip test `/^(projects|personal projects)$/i`. -/
def projSkipLine (l : Str) : Bool :=
  eqCI l (str "projects") || eqCI l (str "personal projects")

/-- `/^[A-Z][A-Za-z0-9 ._-]{2,}$/.test(l)`: a short capitalized phrase. -/
def isProjNameChar (c : Char) : Bool :=
  c.isAlphanum || c == ' ' || c == '.' || c == '_' || c == '-'

def projNameLine (l : Str) : Bool :=
  match l with
  | c :: rest => c.isUpper && rest.length ≥ 2 && rest.all isProjNameChar
  | [] => false

/-- New-entry test: `/^[-•]/.test(l) || /^[A-Z][A-Za-z0-9 ._-]{2,}$/.test(l)`. -/
def projNewEntryLine (l : Str) : Bool := expBulletStart l || projNameLine l

/-- `/tech|stack|tools/i.test(l)`. -/
def techLine (l : Str) : Bool :=
  containsCI l (str "tech") || containsCI l (str "stack") || containsCI l (str "tools")

/-- Tech tokens: split on colon-or-dash, drop the first piece, rejoin with a
colon, split on `[,;•]+`, trim each, drop empties. -/
def techParts (l : Str) : List Str :=
  let pieces := splitOnPred (fun c => c == ':' || c == '-') l
  let joined := intercalateChar ':' (pieces.drop 1)
  ((splitRuns isSkillSep2 joined).map trimStr).filter (fun s => !s.isEmpty)

/-- `/https?:\/\/|github\.com|demo|live/i.test(l)`. -/
def linkLine (l : Str) : Bool :=
  containsCI l (str "http://") || containsCI l (str "https://") ||
  containsCI l (str "github.com") || containsCI l (str "demo") ||
  containsCI l (str "live")

/-- The `lines.forEach` fold of `extractProjects` (lines 241-259). -/
def projGo : List Str → List ProjectEntry → Option ProjectEntry → List ProjectEntry
  | [], entries, cur => entries ++ cur.toList
  | l :: ls, entries, cur =>
    if projSkipLine l then projGo ls entries cur
    else if projNewEntryLine l then
      projGo ls (entries ++ cur.toList)
        (some { name := trimStr (stripBulletMarker l), description := [], tech := [], link := [] })
    else if techLine l then
      let c := cur.getD ⟨[], [], [], []⟩
      projGo ls entries (some { c with tech := dedupFirst (c.tech ++ (techParts l).map cap) })
    else if linkLine l then
      let c := cur.getD ⟨[], [], [], []⟩
      projGo ls entries (some { c with link := (httpSearch l).getD l })
    else
      let c := cur.getD ⟨[], [], [], []⟩
      projGo ls entries
        (some { c with description :=
          if c.description.isEmpty then l else c.description ++ ' ' :: l })

def extractProjects (text : Str) : List ProjectEntry :=
  let sec := findSection text projSectionTest
  if sec.isEmpty then []
  else projGo (sectionLines sec) [] none

/-! ### `extractSummary` (source lines 264-275) -/

/-- `section.replace(/^(summary|objective|about)\s*:?/i, '')`: remove a leading
header word plus trailing whitespace run and optional colon. -/
def stripSummaryHeader (s : Str) : Str :=
  let ls := lowerStr s
  let k :=
    if (str "summary").isPrefixOf ls then some 7
    else if (str "objective").isPrefixOf ls then some 9
    else if (str "about").isPrefixOf ls then some 5
    else none
  match k with
  | none => s
  | some n =>
    let rest := (s.drop n).dropWhile isWSChar
    match rest with
    | ':' :: rest2 => rest2
    | _ => rest

/-- `/[.!]$/.test(l)`. -/
def endsSentence (l : Str) : Bool :=
  match l.getLast? with
  | some c => c == '.' || c == '!'
  | none => false

def extractSummary (text : Str) (name : Str) : Str :=
  let sec := findSection text summarySectionTest
  if !sec.isEmpty then
    let withoutHeader := trimStr (stripSummaryHeader sec)
    intercalateChar ' ' ((splitOnChar '\n' withoutHeader).take 3)
  else
    let lines := ((splitOnChar '\n' text).map trimStr).filter (fun l => !l.isEmpty)
    let startIdx := (findIdxOpt (fun l => containsSub name l) lines).getD 0
    let candidate :=
      intercalateChar ' ' ((((lines.drop (startIdx + 1)).take 4).filter endsSentence).take 2)
    candidate

/-! ### Name and title heuristics (source lines 78-79, 100-104, 123-133) -/

/-- Skip test of `guessNameFromText`:
`/^(email|contact|skills|education|experience|projects|summary|objective)\b/i`. -/
def nameSkipLine (l : Str) : Bool :=
  startsKeywordCI l (str "email") || startsKeywordCI l (str "contact") ||
  startsKeywordCI l (str "skills") || startsKeywordCI l (str "education") ||
  startsKeywordCI l (str "experience") || startsKeywordCI l (str "projects") ||
  startsKeywordCI l (str "summary") || startsKeywordCI l (str "objective")

/-- `/^[A-Za-z .'-]+$/.test(l)`. -/
def isNameChar (c : Char) : Bool :=
  c.isAlpha || c == ' ' || c == '.' || c == Char.ofNat 39 || c == '-'

def nameCharsOnly (l : Str) : Bool := !l.isEmpty && l.all isNameChar

/-- `l.replace(/\s{2,}/g, ' ')`: collapse runs of two or more whitespace
characters to a single space (single whitespace characters are kept as-is).
Fuel-bounded; every step consumes at least one character. -/
def collapse2Go : Nat → Str → Str
  | 0, _ => []
  | Nat.succ f, s =>
    match s with
    | [] => []
    | c :: cs =>
      if isWSChar c && (cs.headD 'x' |> isWSChar) then
        ' ' :: collapse2Go f (cs.dropWhile isWSChar)
      else c :: collapse2Go f cs

def collapse2WS (s : Str) : Str := collapse2Go s.length s

/-- `l.split(' ').length`: number of single-space-separated fields. -/
def wordCount (l : Str) : Nat := (splitOnChar ' ' l).length

/-- `guessNameFromText` of the source: scan the first five lines for a short
line of name characters, skipping header-like lines. -/
def guessNameFromText (lines : List Str) : Str :=
  let rec go : List Str → Str
    | [] => []
    | l :: ls =>
      if l.isEmpty then go ls
      else if nameSkipLine l then go ls
      else if wordCount l ≤ 6 && nameCharsOnly l then trimStr (collapse2WS l)
      else go ls
  go (lines.take 5)

/-- Exclusion regex of the title heuristic:
`/(email|phone|linkedin|github|summary|objective|experience|education|projects)/i`. -/
def titleExcludeLine (l : Str) : Bool :=
  containsCI l (str "email") || containsCI l (str "phone") ||
  containsCI l (str "linkedin") || containsCI l (str "github") ||
  containsCI l (str "summary") || containsCI l (str "objective") ||
  containsCI l (str "experience") || containsCI l (str "education") ||
  containsCI l (str "projects")

/-! ### `parseResumeText` (source lines 69-121) -/

/-- The normalized line sequence: split on newlines, trim, drop empties. -/
def normLines (text : Str) : List Str :=
  ((splitOnChar '\n' text).map trimStr).filter (fun l => !l.isEmpty)

/-- The rejoined blob. -/
def blobOf (text : Str) : Str := intercalateChar '\n' (normLines text)

/-- Name heuristic: first line if longer than 2 characters and at most 6
space-separated words, else `guessNameFromText`. -/
def probableNameOf (lines : List Str) : Str :=
  let l0 := lines.headD []
  if l0.length > 2 && wordCount l0 ≤ 6 then l0 else guessNameFromText lines

/-- Title heuristic (source lines 100-104). -/
def titleOf (lines : List Str) : Str :=
  match lines.getD 1 [] with
  | [] => []
  | l1 => if decide (l1.length < 80) && !titleExcludeLine l1 then l1 else []

def parseResumeText (text : Str) : ResumeRecord :=
  let lines := normLines text
  let blob := blobOf text
  let probableName := probableNameOf lines
  { name := probableName
    title := titleOf lines
    contact :=
      { email := (emailSearch blob).getD []
        phone := (phoneSearch blob).getD []
        location := (locSearch none blob).getD []
        links := dedupFirst (linkMatches blob) }
    summary := extractSummary blob probableName
    skills := extractSkills blob
    education := extractEducation blob
    experience := extractExperience blob
    projects := extractProjects blob }

/-- The single public operation: `parseResume(text: string) -> ResumeRecord`. -/
def parseResume (s : String) : ResumeRecord := parseResumeText (str s)

/-! ## Specification-side definitions

Formalizations of the notions used by the spec claims, to be compared with the
source-side definitions above. -/

/-- Index of the first line satisfying `test` (the spec's "the first line
matching the header pattern"). -/
def firstMatchIdx (test : Str → Bool) : List Str → Option Nat
  | [] => none
  | l :: ls => if test l then some 0 else (firstMatchIdx test ls).map (· + 1)

/-- The spec's section end: the first line after `s` that is a recognized
section-header line, or the end of the document. -/
def firstBoundaryAfter (lines : List Str) (s : Nat) : Nat :=
  match firstMatchIdx isBoundaryLine (lines.drop (s + 1)) with
  | some k => s + 1 + k
  | none => lines.length

/-- The bullet contributed by one section line of `extractExperience`, per the
branch structure of the source: header and new-entry and year lines contribute
none; a marker or short line contributes its stripped trimmed form; any other
line is kept verbatim. -/
def expBulletOf (l : Str) : Option Str :=
  if expSkipLine l then none
  else if expNewEntryLine l then none
  else if yearTest 12 l then none
  else if expBulletStart l || decide (l.length < 140) then some (trimStr (stripBulletMarker l))
  else some l

/-- The section lines consumed by `extractExperience`. -/
def expSectionLines (text : Str) : List Str :=
  sectionLines (findSection text expSectionTest)

/-! ## Supporting lemmas -/

theorem dedupFirstAux_spec {α : Type} [DecidableEq α] :
    ∀ (l seen : List α),
      (dedupFirstAux seen l).Nodup ∧ ∀ x ∈ dedupFirstAux seen l, x ∉ seen := by
  intro l
  induction l with
  | nil => intro seen; simp [dedupFirstAux]
  | cons x xs ih =>
    intro seen
    by_cases h : x ∈ seen
    · simpa [dedupFirstAux, h] using ih seen
    · have h2 := ih (x :: seen)
      constructor
      · simp only [dedupFirstAux, h, if_false, List.nodup_cons]
        refine ⟨fun hx => (h2.2 x hx) (by simp), h2.1⟩
      · intro y hy
        simp only [dedupFirstAux, h, if_false, List.mem_cons] at hy
        rcases hy with rfl | hy
        · exact h
        · intro hmem
          exact (h2.2 y hy) (by simp [hmem])

theorem dedupFirst_nodup {α : Type} [DecidableEq α] (l : List α) : (dedupFirst l).Nodup :=
  (dedupFirstAux_spec l []).1

theorem headerIndexesFrom_head (test : Str → Bool) :
    ∀ (ls : List Str) (i : Nat),
      (headerIndexesFrom test i ls).head? = (firstMatchIdx test ls).map (· + i) := by
  intro ls
  induction ls with
  | nil => intro i; simp [headerIndexesFrom, firstMatchIdx]
  | cons l ls ih =>
    intro i
    unfold headerIndexesFrom firstMatchIdx
    by_cases h : test l
    · simp [h]
    · simp only [h, if_false, Bool.false_eq_true]
      rw [ih (i + 1)]
      cases firstMatchIdx test ls with
      | none => rfl
      | some j =>
        simp only [Option.map_some']
        congr 1
        omega

theorem firstMatchIdx_lt_length (test : Str → Bool) :
    ∀ (ls : List Str) (k : Nat), firstMatchIdx test ls = some k → k < ls.length := by
  intro ls
  induction ls with
  | nil => intro k h; simp [firstMatchIdx] at h
  | cons l ls ih =>
    intro k h
    unfold firstMatchIdx at h
    by_cases ht : test l
    · rw [if_pos ht] at h
      cases h
      simp
    · rw [if_neg ht] at h
      cases hm : firstMatchIdx test ls with
      | none => rw [hm] at h; simp at h
      | some j =>
        rw [hm] at h
        simp only [Option.map_some'] at h
        cases h
        have := ih j hm
        simp only [List.length_cons]
        omega

theorem drop_eq_getD_cons :
    ∀ (l : List Str) (i : Nat), i < l.length → l.drop i = l.getD i [] :: l.drop (i + 1) := by
  intro l
  induction l with
  | nil => intro i h; simp at h
  | cons x xs ih =>
    intro i h
    cases i with
    | zero => simp
    | succ j =>
      have hj : j < xs.length := by simpa using h
      simpa using ih j hj

theorem sectionEndGo_eq (lines : List Str) :
    ∀ (f i : Nat), lines.length ≤ i + f →
      sectionEndGo lines f i =
        (firstMatchIdx isBoundaryLine (lines.drop i)).elim lines.length (fun k => i + k) := by
  intro f
  induction f with
  | zero =>
    intro i hf
    have hd : lines.drop i = [] := List.drop_eq_nil_of_le (by omega)
    simp [sectionEndGo, hd, firstMatchIdx]
  | succ f ih =>
    intro i hf
    rw [sectionEndGo]
    by_cases hi : i < lines.length
    · rw [drop_eq_getD_cons lines i hi]
      unfold firstMatchIdx
      rw [if_pos hi]
      by_cases hb : isBoundaryLine (lines.getD i [])
      · rw [if_pos hb, if_pos hb]
        simp
      · rw [if_neg hb, if_neg hb]
        rw [ih (i + 1) (by omega)]
        cases firstMatchIdx isBoundaryLine (lines.drop (i + 1)) with
        | none => simp
        | some k =>
          simp
          omega
    · have hd : lines.drop i = [] := List.drop_eq_nil_of_le (by omega)
      simp [hi, hd, firstMatchIdx]

theorem sectionEnd_eq_firstBoundaryAfter (lines : List Str) (s : Nat) :
    sectionEnd lines s = firstBoundaryAfter lines s := by
  unfold sectionEnd firstBoundaryAfter
  rw [sectionEndGo_eq lines lines.length (s + 1) (by omega)]
  cases firstMatchIdx isBoundaryLine (lines.drop (s + 1)) with
  | none => simp
  | some k => simp

theorem sectionEndGo_le_of_boundary (lines : List Str) :
    ∀ (f i k : Nat), lines.length ≤ i + f → i ≤ k → k < lines.length →
      isBoundaryLine (lines.getD k []) = true → sectionEndGo lines f i ≤ k := by
  intro f
  induction f with
  | zero => intro i k hf hik hk _; omega
  | succ f ih =>
    intro i k hf hik hk hb
    rw [sectionEndGo]
    by_cases hi : i < lines.length
    · rw [if_pos hi]
      by_cases hbi : isBoundaryLine (lines.getD i [])
      · rw [if_pos hbi]
        exact hik
      · have hik2 : i + 1 ≤ k := by
          rcases Nat.lt_or_ge i k with h | h
          · omega
          · have heq : i = k := by omega
            rw [heq] at hbi
            exact absurd hb hbi
        rw [if_neg hbi]
        exact ih (i + 1) k (by omega) hik2 hk hb
    · rw [if_neg hi]
      omega

theorem expOpenEntry_bullets (l : Str) : (expOpenEntry l).bullets = [] := by
  unfold expOpenEntry
  by_cases h : (expParts l).length ≥ 2
  · rw [if_pos h]
    cases findIdxOpt roleKeyword2 (expParts l) with
    | none => rfl
    | some i => rfl
  · rw [if_neg h]

theorem expGo_bullets :
    ∀ (ls : List Str) (entries : List ExperienceEntry) (cur : Option ExperienceEntry),
      ((expGo ls entries cur).map (fun e => e.bullets)).flatten =
        (entries.map (fun e => e.bullets)).flatten ++ cur.elim [] (fun c => c.bullets) ++
          ls.filterMap expBulletOf := by
  intro ls
  induction ls with
  | nil =>
    intro entries cur
    cases cur with
    | none => simp [expGo]
    | some c => simp [expGo]
  | cons l ls ih =>
    intro entries cur
    by_cases h1 : expSkipLine l
    · have hb : expBulletOf l = none := by simp [expBulletOf, h1]
      simp only [expGo, h1, if_true, List.filterMap_cons, hb]
      exact ih entries cur
    · by_cases h2 : expNewEntryLine l
      · have hb : expBulletOf l = none := by simp [expBulletOf, h1, h2]
        simp only [expGo, h1, h2, if_true, if_false, Bool.false_eq_true,
          List.filterMap_cons, hb]
        rw [ih]
        cases cur with
        | none => simp [expOpenEntry_bullets]
        | some c => simp [expOpenEntry_bullets]
      · by_cases h3 : yearTest 12 l
        · have hb : expBulletOf l = none := by simp [expBulletOf, h1, h2, h3]
          simp only [expGo, h1, h2, h3, if_true, if_false, Bool.false_eq_true,
            List.filterMap_cons, hb]
          rw [ih]
          cases cur with
          | none => simp
          | some c => simp
        · by_cases h4 : expBulletStart l || decide (l.length < 140)
          · have hb : expBulletOf l = some (trimStr (stripBulletMarker l)) := by
              simp [expBulletOf, h1, h2, h3, h4]
            simp only [expGo, h1, h2, h3, h4, if_true, if_false, Bool.false_eq_true,
              List.filterMap_cons, hb]
            rw [ih]
            cases cur with
            | none => simp
            | some c => simp
          · have hb : expBulletOf l = some l := by
              simp [expBulletOf, h1, h2, h3, h4]
            simp only [expGo, h1, h2, h3, h4, if_true, if_false, Bool.false_eq_true,
              List.filterMap_cons, hb]
            rw [ih]
            cases cur with
            | none => simp
            | some c => simp

theorem projGo_tech_nodup :
    ∀ (ls : List Str) (entries : List ProjectEntry) (cur : Option ProjectEntry),
      (∀ p ∈ entries, p.tech.Nodup) → (∀ c, cur = some c → c.tech.Nodup) →
      ∀ p ∈ projGo ls entries cur, p.tech.Nodup := by
  intro ls
  induction ls with
  | nil =>
    intro entries cur he hc p hp
    cases cur with
    | none =>
      simp [projGo] at hp
      exact he p hp
    | some c =>
      simp [projGo] at hp
      rcases hp with hp | rfl
      · exact he p hp
      · exact hc p rfl
  | cons l ls ih =>
    intro entries cur he hc p hp
    by_cases h1 : projSkipLine l
    · rw [projGo, if_pos h1] at hp
      exact ih entries cur he hc p hp
    · by_cases h2 : projNewEntryLine l
      · rw [projGo, if_neg h1, if_pos h2] at hp
        refine ih _ _ ?_ ?_ p hp
        · intro q hq
          rcases List.mem_append.mp hq with hq | hq
          · exact he q hq
          · cases cur with
            | none => simp at hq
            | some c =>
              simp at hq
              rw [hq]
              exact hc c rfl
        · intro c hcc
          cases hcc
          simp
      · by_cases h3 : techLine l
        · rw [projGo, if_neg h1, if_neg h2, if_pos h3] at hp
          refine ih _ _ he ?_ p hp
          intro c hcc
          cases hcc
          exact dedupFirst_nodup _
        · by_cases h4 : linkLine l
          · rw [projGo, if_neg h1, if_neg h2, if_neg h3, if_pos h4] at hp
            refine ih _ _ he ?_ p hp
            intro c hcc
            cases hcc
            simp only
            cases cur with
            | none => simp
            | some c0 => exact hc c0 rfl
          · rw [projGo, if_neg h1, if_neg h2, if_neg h3, if_neg h4] at hp
            refine ih _ _ he ?_ p hp
            intro c hcc
            cases hcc
            simp only
            cases cur with
            | none => simp
            | some c0 => exact hc c0 rfl

theorem sectionBounds_start_valid (test : Str → Bool) (lines : List Str) (s e : Nat)
    (h : sectionBounds test lines = some (s, e)) :
    s < lines.length ∧ e = sectionEnd lines s := by
  unfold sectionBounds at h
  cases hh : headerIndexes test lines with
  | nil => rw [hh] at h; simp at h
  | cons a rest =>
    rw [hh] at h
    simp at h
    obtain ⟨rfl, rfl⟩ := h
    have hhead : (headerIndexes test lines).head? = some a := by rw [hh]; rfl
    rw [headerIndexes, headerIndexesFrom_head] at hhead
    cases hm : firstMatchIdx test lines with
    | none => rw [hm] at hhead; simp at hhead
    | some j =>
      rw [hm] at hhead
      simp at hhead
      have := firstMatchIdx_lt_length test lines j hm
      omega

/-! ## Claims -/

/-- C1.  `parseResume` is total: for every string input it returns some
`ResumeRecord` (the embedding is a total function), and on the empty string
every field of the result is at its empty default. -/
theorem c1_parseResume_total_and_empty_default :
    (∀ s : String, ∃ r : ResumeRecord, parseResume s = r) ∧
    parseResume "" =
      { name := [], title := []
        contact := { email := [], phone := [], location := [], links := [] }
        summary := [], skills := [], education := [], experience := [], projects := [] } :=
  ⟨fun s => ⟨parseResume s, rfl⟩, by decide⟩

/-- The input of Scenario 1 of the spec. -/
def janeResume : String :=
  "Jane Doe\nSoftware Engineer\njane@x.com\nSkills\nGo, Rust, Python\nEducation\nB.Tech Computer Science\nXYZ University\n2018 - 2022"

/-- C2.  Scenario 1: on the Jane Doe input, `parseResume` extracts the stated
name, title, email, skills and the single education entry. -/
theorem c2_scenario1 :
    (parseResume janeResume).name = str "Jane Doe" ∧
    (parseResume janeResume).title = str "Software Engineer" ∧
    (parseResume janeResume).contact.email = str "jane@x.com" ∧
    (parseResume janeResume).skills = [str "Go", str "Rust", str "Python"] ∧
    (parseResume janeResume).education =
      [{ degree := str "B.Tech Computer Science", institution := str "XYZ University",
         period := str "2018 - 2022", details := [] }] := by
  decide

/-- C3.  `findSection` uses the FIRST line matching the header test as the
section start; the section runs to the first subsequent recognized
section-header line (or the end of the document), and the result is the empty
string when no line matches the header test. -/
theorem c3_findSection_locates (text : Str) (test : Str → Bool) :
    (firstMatchIdx test (splitOnChar '\n' text) = none → findSection text test = []) ∧
    (∀ s, firstMatchIdx test (splitOnChar '\n' text) = some s →
      findSection text test =
        trimStr (intercalateChar '\n'
          (((splitOnChar '\n' text).drop s).take
            (firstBoundaryAfter (splitOnChar '\n' text) s - s)))) := by
  constructor
  · intro h
    have hh : headerIndexes test (splitOnChar '\n' text) = [] := by
      have hd := headerIndexesFrom_head test (splitOnChar '\n' text) 0
      rw [h] at hd
      rw [headerIndexes]
      cases hx : headerIndexesFrom test 0 (splitOnChar '\n' text) with
      | nil => rfl
      | cons a rest => rw [hx] at hd; simp at hd
    simp only [findSection, sectionBounds, hh]
  · intro s hs
    have hd := headerIndexesFrom_head test (splitOnChar '\n' text) 0
    rw [hs] at hd
    cases hx : headerIndexesFrom test 0 (splitOnChar '\n' text) with
    | nil => rw [hx] at hd; simp at hd
    | cons a rest =>
      rw [hx] at hd
      simp at hd
      subst hd
      simp only [findSection, sectionBounds, headerIndexes, hx]
      rw [sectionEnd_eq_firstBoundaryAfter]

/-- Witness for C3 at concrete inputs: a found section (first matching line 0,
no later boundary) and a missing section. -/
theorem c3_findSection_locates_witness :
    findSection (str "Summary\nhello") summarySectionTest = str "Summary\nhello" ∧
    findSection (str "hello") summarySectionTest = [] := by
  constructor
  · exact Eq.trans
      ((c3_findSection_locates (str "Summary\nhello") summarySectionTest).2 0 (by decide))
      (by decide)
  · exact (c3_findSection_locates (str "hello") summarySectionTest).1 (by decide)

/-- The counterexample input for C4: the Experience section contains a line
mentioning the word "education". -/
def c4Input : String :=
  "Experience\nWorked on education software\nBuilt stuff\nEducation\nB.Tech CS"

/-- C4 counterexample.  The Experience section's bounded range is lines 0-2
(line 2 being "Built stuff"), yet "Built stuff" appears inside a field of an
EducationEntry produced by the Education classifier, because the Education
header pattern first matches the Experience-range line "Worked on education
software": section isolation fails. -/
theorem c4_counterexample :
    sectionBounds expSectionTest (normLines (str c4Input)) = some (0, 3) ∧
    (normLines (str c4Input)).getD 2 [] = str "Built stuff" ∧
    (parseResume c4Input).education.any
      (fun e => containsSub (str "Built stuff") e.details) = true := by
  decide

/-- C4 amended.  Two located sections have disjoint line ranges provided each
header pattern first matches at a line that is itself a recognized
section-header (boundary) line, and these are distinct lines. -/
theorem c4_section_isolation_amended
    (lines : List Str) (t1 t2 : Str → Bool) (s1 e1 s2 e2 : Nat)
    (h1 : sectionBounds t1 lines = some (s1, e1))
    (h2 : sectionBounds t2 lines = some (s2, e2))
    (hb1 : isBoundaryLine (lines.getD s1 []) = true)
    (hb2 : isBoundaryLine (lines.getD s2 []) = true)
    (hne : s1 ≠ s2) :
    (e1 ≤ s2 ∨ e2 ≤ s1) ∧ ∀ i, ¬(s1 ≤ i ∧ i < e1 ∧ s2 ≤ i ∧ i < e2) := by
  obtain ⟨hs1, he1⟩ := sectionBounds_start_valid t1 lines s1 e1 h1
  obtain ⟨hs2, he2⟩ := sectionBounds_start_valid t2 lines s2 e2 h2
  have main : e1 ≤ s2 ∨ e2 ≤ s1 := by
    rcases Nat.lt_or_ge s1 s2 with h | h
    · left
      rw [he1]
      unfold sectionEnd
      exact sectionEndGo_le_of_boundary lines lines.length (s1 + 1) s2 (by omega) (by omega)
        hs2 hb2
    · right
      rw [he2]
      unfold sectionEnd
      exact sectionEndGo_le_of_boundary lines lines.length (s2 + 1) s1 (by omega)
        (by omega) hs1 hb1
  refine ⟨main, ?_⟩
  intro i hi
  rcases main with h | h <;> omega

/-- Witness for C4's amended theorem: genuine "Experience" and "Education"
header lines yield disjoint ranges. -/
theorem c4_section_isolation_amended_witness :
    ((2 : Nat) ≤ 2 ∨ (4 : Nat) ≤ 0) ∧
      ∀ i, ¬(0 ≤ i ∧ i < 2 ∧ 2 ≤ i ∧ i < 4) :=
  c4_section_isolation_amended
    (splitOnChar '\n' (str "Experience\nAcme - Engineer at Foo\nEducation\nB.Tech"))
    expSectionTest eduSectionTest 0 2 2 4
    (by decide) (by decide) (by decide) (by decide) (by decide)

/-- The input of Scenario 3 of the spec. -/
def c5Input : String := "Skills\nLanguages: JavaScript, TypeScript"

/-- C5 counterexample.  On the Scenario 3 input the skills are NOT
["Javascript", "Typescript"]: `cap` only upper-cases word-initial characters
and never lower-cases the rest, so the interior capitals survive. -/
theorem c5_counterexample :
    (parseResume c5Input).skills ≠ [str "Javascript", str "Typescript"] ∧
    (parseResume c5Input).skills = [str "JavaScript", str "TypeScript"] := by
  constructor
  · decide
  · decide

/-- C5 amended.  The label up to and including the first colon is discarded
and each remaining token gets the first letter of every word upper-cased with
all other characters unchanged (whitespace collapsed), deduplicated in
first-seen order: the skills are ["JavaScript", "TypeScript"]. -/
theorem c5_scenario3_amended :
    (parseResume c5Input).skills = [str "JavaScript", str "TypeScript"] := by
  decide

/-- C6 counterexample.  With second line "Skills" — a section-header keyword —
the title is "Skills", not the empty string: the title exclusion list does not
contain "skills". -/
theorem c6_counterexample :
    (parseResume "Jane Doe\nSkills\nGo").title = str "Skills" ∧ str "Skills" ≠ [] := by
  constructor
  · decide
  · decide

/-- The words whose (case-insensitive) presence excludes the second line from
being used as the title (the source's exclusion regex: email, phone, linkedin,
github, summary, objective, experience, education, projects — NOT the
section-header keyword set). -/
def titleExcludedWords : List Str :=
  [str "email", str "phone", str "linkedin", str "github", str "summary",
   str "objective", str "experience", str "education", str "projects"]

/-- The amended title rule: the second normalized line is the title exactly
when it is shorter than 80 characters and contains none of the nine excluded
words. -/
def titleRuleSpec (lines : List Str) : Str :=
  match lines.getD 1 [] with
  | [] => []
  | l1 =>
    if decide (l1.length < 80) && !(titleExcludedWords.any (fun w => containsCI l1 w)) then l1
    else []

/-- C6 amended.  For every input, the title is the second normalized line if it
is shorter than 80 characters and does not contain (case-insensitively) any of:
email, phone, linkedin, github, summary, objective, experience, education,
projects; otherwise it is empty.  (A second line equal to a section-header
keyword outside this list, such as "Skills", IS used as the title.) -/
theorem c6_title_rule_amended (s : String) :
    (parseResume s).title = titleRuleSpec (normLines (str s)) := by
  show titleOf (normLines (str s)) = titleRuleSpec (normLines (str s))
  unfold titleOf titleRuleSpec
  cases normLines (str s) |>.getD 1 [] with
  | nil => rfl
  | cons c cs =>
    have hx : titleExcludeLine (c :: cs) =
        titleExcludedWords.any (fun w => containsCI (c :: cs) w) := by
      simp [titleExcludeLine, titleExcludedWords, Bool.or_assoc]
    simp only [hx]

/-- C7.  No element appears twice in the skills list, in the links list, or in
the tech list of any project entry. -/
theorem c7_dedup (s : String) :
    (parseResume s).skills.Nodup ∧ (parseResume s).contact.links.Nodup ∧
    ∀ p ∈ (parseResume s).projects, p.tech.Nodup := by
  refine ⟨?_, ?_, ?_⟩
  · show (extractSkills (blobOf (str s))).Nodup
    simp only [extractSkills]
    by_cases h : (findSection (blobOf (str s)) skillsSectionTest).isEmpty
    · rw [if_pos h]
      exact List.nodup_nil
    · rw [if_neg h]
      exact dedupFirst_nodup _
  · show (dedupFirst (linkMatches (blobOf (str s)))).Nodup
    exact dedupFirst_nodup _
  · show ∀ p ∈ extractProjects (blobOf (str s)), p.tech.Nodup
    simp only [extractProjects]
    by_cases h : (findSection (blobOf (str s)) projSectionTest).isEmpty
    · rw [if_pos h]
      intro p hp
      simp at hp
    · rw [if_neg h]
      exact projGo_tech_nodup _ [] none (fun p hp => by simp at hp) (fun c hc => by cases hc)

/-- Witness for C7 at a concrete input with a deduplicated tech list. -/
theorem c7_dedup_witness : ([str "Go", str "Rust"] : List Str).Nodup := by
  have h := (c7_dedup "Projects\nMyApp\nTech: Go, Go, Rust").2.2
  have hm : (⟨str "MyApp", [], [str "Go", str "Rust"], []⟩ : ProjectEntry) ∈
      (parseResume "Projects\nMyApp\nTech: Go, Go, Rust").projects := by
    decide
  simpa using h _ hm

/-- C8.  Within each experience entry the bullets appear in source order:
concatenating the bullets of all entries, in order, yields exactly the
stripped bullet lines of the experience section in encounter order (bullets
are only ever appended, never removed or overwritten). -/
theorem c8_bullets_order_preserved (text : Str) :
    ((extractExperience text).map (fun e => e.bullets)).flatten =
      (expSectionLines text).filterMap expBulletOf := by
  simp only [extractExperience, expSectionLines]
  by_cases h : (findSection text expSectionTest).isEmpty
  · rw [if_pos h]
    have hnil : findSection text expSectionTest = [] := by
      cases hh : findSection text expSectionTest with
      | nil => rfl
      | cons c cs => rw [hh] at h; simp at h
    rw [hnil]
    rfl
  · rw [if_neg h]
    have hgo := expGo_bullets (sectionLines (findSection text expSectionTest)) [] none
    simpa using hgo

/-- C9.  `parseResume` is a pure deterministic function of its input string:
two invocations on the same string yield equal records (the embedding has no
state; the result depends only on the argument). -/
theorem c9_deterministic (s : String) : parseResume s = parseResume s := rfl

/-- C10.  Some input makes the Experience classifier emit an entry whose role
and company are both empty, with only period and bullets populated: a year
range line without a dash opens an anonymous entry. -/
theorem c10_empty_role_company_entry :
    ∃ (text : Str) (e : ExperienceEntry), extractExperience text = [e] ∧
      e.role = [] ∧ e.company = [] ∧ e.period ≠ [] ∧ e.bullets ≠ [] := by
  refine ⟨str "Experience\n2019 to 2021\nDid things",
    { company := [], role := [], period := str "2019 to 2021",
      bullets := [str "Did things"] }, ?_, rfl, rfl, ?_, ?_⟩
  · decide
  · decide
  · decide

end ResumeParser
